import Mathlib

/-!
Shallow embedding of the abdicate dependency-injection container
(src/unnamed/part_005, the concatenation of lib/instancefactory.js and
lib/context.js that the claims cite), together with theorems settling the
frozen claims about it.

Modelling conventions:
* JavaScript values visible to the container are the inductive `Value`;
  a missing object property reads as `Value.vUndefined`.
* The container's asynchronous promise chains are linearized: every
  `.then` continuation runs to completion before the next logical step.
  State (the Context's `instances` map, each factory's cached `instance`
  property, and a ghost trace of factory invocations) is threaded
  explicitly.
* A user factory function is opaque; `FactoryMethod` records what the
  container can observe of it under each of the three calling
  conventions, as a function of the argument list and of how many times
  the factory has already been invoked for that name (a stateful JS
  closure may behave differently on each invocation).
* Recursion through the dependency graph is bounded by explicit fuel;
  `Res.outOfFuel` is a model artifact that a sufficiently large fuel
  never produces on a terminating execution.
-/

abbrev Name := String

/-- JavaScript values as far as the container observes them. Objects are
identified by a numeric identity (reference equality); NaN is not
modelled. -/
inductive Value where
  | vUndefined
  | vNull
  | vBool (b : Bool)
  | vNum (n : Int)
  | vStr (s : String)
  | vArr (elems : List Value)
  | vObj (id : Nat)

/-- JavaScript truthiness of a value (used by the `if (instance && fac && ...)`
test at part_005 line 155 and by the node-callback error check). -/
def truthy : Value → Bool
  | .vUndefined => false
  | .vNull => false
  | .vBool b => b
  | .vNum n => n != 0
  | .vStr s => s != ""
  | .vArr _ => true
  | .vObj _ => true

/-- JavaScript loose equality against undefined (the `instance == undefined`
test of singletonBuild, part_005 line 54): true exactly for undefined and
null. -/
def looseEqUndefined : Value → Bool
  | .vUndefined => true
  | .vNull => true
  | _ => false

/-- Is the value a JavaScript array? Ramda's shallow flatten splices
exactly the array-like elements. -/
def isArr : Value → Bool
  | .vArr _ => true
  | _ => false

/-- How a factory method signals completion: `async` is false, 'promise'
or 'callback' in the source (part_005 lines 13, 72-82). -/
inductive AsyncKind where
  | sync
  | promise
  | callback
deriving DecidableEq, Repr

/-- Observable behavior of a user factory function under each way the
container may call it (part_005 lines 70-82). The `Nat` argument is the
number of earlier invocations recorded for the provider's name, so a
stateful closure can differ across invocations. -/
structure FactoryMethod where
  /-- Under async='promise': the settled outcome of the promise the
  function returns when applied to the arguments (ok = fulfilled,
  error = rejected). -/
  promiseRun : List Value → Nat → Except Value Value
  /-- Under async='callback': the (err, result) argument pair the
  function passes to its trailing node-style callback. -/
  callbackRun : List Value → Nat → Value × Value
  /-- Under the synchronous convention: outcome of
  `factoryMethod.apply(instance, args)` on the fresh object built by
  `Object.create(factoryMethod.prototype)` — ok is the receiver's final
  state, error is a thrown value (part_005 lines 78-80). -/
  constructRun : List Value → Nat → Except Value Value
  /-- Under the synchronous convention: the function's own return value,
  which part_005 line 79 computes and discards (the receiver, not this
  value, is returned at line 80). -/
  returnRun : List Value → Nat → Value

/-- An InstanceFactory record (part_005 lines 9-23): a named provider
with its factory method, cached instance property, asynchronicity,
scope and dependency list. The JS property named `instance` is called
`inst` here because `instance` is a Lean keyword; it starts out as
undefined (the property is unset before the first build caches into
it). -/
structure InstanceFactory where
  name : Name
  factoryMethod : FactoryMethod
  inst : Value
  async : AsyncKind
  scope : String
  dependencies : List Name

/-- Association-list lookup, modelling a read of a JS object property
(keys are unique in the objects the container builds). -/
def lookupA {α : Type} : List (Name × α) → Name → Option α
  | [], _ => none
  | (k, v) :: rest, key => if k = key then some v else lookupA rest key

/-- Association-list write, modelling a JS object property assignment:
overwrite in place if the key exists, else append. -/
def insertA {α : Type} : List (Name × α) → Name → α → List (Name × α)
  | [], key, v => [(key, v)]
  | (k, w) :: rest, key, v =>
      if k = key then (key, v) :: rest else (k, w) :: insertA rest key v

/-- Association-list in-place update of the first entry for a key,
modelling mutation of the object stored at that key. -/
def updateA {α : Type} (f : α → α) : List (Name × α) → Name → List (Name × α)
  | [], _ => []
  | (k, w) :: rest, key =>
      if k = key then (k, f w) :: rest else (k, w) :: updateA f rest key

/-- A DI Context (part_005 lines 99-103): the registered factories, the
context-level instance cache, and a ghost trace `calls` of every factory
invocation performed, as (name, argument list) pairs in execution
order. -/
structure Context where
  factories : List (Name × InstanceFactory)
  instances : List (Name × Value)
  calls : List (Name × List Value)

/-- Reading `self.instances[name]`: a missing key yields undefined. -/
def jsRead (instances : List (Name × Value)) (name : Name) : Value :=
  (lookupA instances name).getD .vUndefined

/-- Number of factory invocations already recorded for a name. -/
def invocationCount (ctx : Context) (name : Name) : Nat :=
  (ctx.calls.filter (fun c => c.1 = name)).length

/-- Outcome of a getInstance / build promise chain. -/
inductive Res where
  | ok (v : Value)
  | err (e : Value)
  | outOfFuel

/-- Convert a factory outcome into a promise-chain outcome. -/
def resOfExcept : Except Value Value → Res
  | .ok v => .ok v
  | .error e => .err e

/-- The context-level cache helper (part_005 lines 215-219): store the
built instance in `Context.instances` under the name and hand it on. It
runs for every successful build, prototype scope included. -/
def cacheCtx (ctx : Context) (name : Name) (v : Value) : Context :=
  { ctx with instances := insertA ctx.instances name v }

/-- InstanceFactory.prototype.cache (part_005 lines 26-30): store the
built instance in the factory's own `instance` property. The JS code
mutates the factory object in place; here the factories map is updated
at the key under which the factory is registered. -/
def cacheFac (ctx : Context) (name : Name) (v : Value) : Context :=
  { ctx with factories := updateA (fun fac => { fac with inst := v }) ctx.factories name }

/-- Invoke the factory method under its calling convention: `create`
(part_005 lines 70-82). Under 'promise' the returned promise's outcome
is the result; under 'callback' the method is denodeified (a truthy
error argument rejects, otherwise the result argument fulfills); in the
synchronous case the instance is the freshly constructed receiver — the
factory's own return value (`FactoryMethod.returnRun`) is discarded.
The ghost trace records the invocation. -/
def create (ctx : Context) (name : Name) (fac : InstanceFactory) (args : List Value) :
    Res × Context :=
  let k := invocationCount ctx name
  let ctx' := { ctx with calls := ctx.calls ++ [(name, args)] }
  match fac.async with
  | .promise => (resOfExcept (fac.factoryMethod.promiseRun args k), ctx')
  | .callback =>
      let er := fac.factoryMethod.callbackRun args k
      if truthy er.1 then (.err er.1, ctx') else (.ok er.2, ctx')
  | .sync => (resOfExcept (fac.factoryMethod.constructRun args k), ctx')

/-- Type of the getInstance function that the build helpers receive (in
the source they receive the context and call `context.getInstance`). -/
def GetInst : Type := Context → Name → Res × Context

/-- Run getInstance for each name in order, threading the state (the
loop shared by getArgs, part_005 lines 62-67, and by getInstances'
`Promise.all(R.map(getInstance))`, lines 180-184: every lookup is issued,
in order, and the outcomes are collected). -/
def mapGetInstance (gi : GetInst) : List Name → Context → List Res × Context
  | [], ctx => ([], ctx)
  | n :: rest, ctx =>
      let rc := gi ctx n
      let rc' := mapGetInstance gi rest rc.2
      (rc.1 :: rc'.1, rc'.2)

/-- Outcome of a Promise.all over the collected lookups. -/
inductive ArgsOut where
  | ok (args : List Value)
  | err (e : Value)
  | outOfFuel

/-- Promise.all combination: all fulfilled yields the value list in
order; otherwise the first non-fulfilled outcome (in issue order) wins. -/
def allRes : List Res → ArgsOut
  | [] => .ok []
  | .ok v :: rest =>
      match allRes rest with
      | .ok vs => .ok (v :: vs)
      | .err e => .err e
      | .outOfFuel => .outOfFuel
  | .err e :: _ => .err e
  | .outOfFuel :: _ => .outOfFuel

/-- Use the Context to assemble the factory arguments: getArgs (part_005
lines 61-68), `Promise.all` over `context.getInstance` of each declared
dependency in order. -/
def getArgs (gi : GetInst) (dependencies : List Name) (ctx : Context) :
    ArgsOut × Context :=
  let rc := mapGetInstance gi dependencies ctx
  (allRes rc.1, rc.2)

/-- Build process when every instance is newly created: prototypeBuild
(part_005 lines 48-50), `getArgs(...).then(create(...))`. -/
def prototypeBuild (gi : GetInst) (ctx : Context) (name : Name) (fac : InstanceFactory) :
    Res × Context :=
  match getArgs gi fac.dependencies ctx with
  | (.ok args, ctx') => create ctx' name fac args
  | (.err e, ctx') => (.err e, ctx')
  | (.outOfFuel, ctx') => (.outOfFuel, ctx')

/-- Build process when there is only ever one instance: singletonBuild
(part_005 lines 52-59). The factory-level cache test uses JS loose
equality against undefined, so a cached null triggers a rebuild. -/
def singletonBuild (gi : GetInst) (ctx : Context) (name : Name) (fac : InstanceFactory) :
    Res × Context :=
  if looseEqUndefined fac.inst then prototypeBuild gi ctx name fac
  else (.ok fac.inst, ctx)

/-- InstanceFactory.prototype.build (part_005 lines 38-41): prototype
scope always builds afresh; otherwise singletonBuild runs and its result
is cached into the factory's `instance` property
(`.then(R.bind(this.cache, this))`). -/
def build (gi : GetInst) (ctx : Context) (name : Name) (fac : InstanceFactory) :
    Res × Context :=
  if fac.scope = "prototype" then prototypeBuild gi ctx name fac
  else
    match singletonBuild gi ctx name fac with
    | (.ok v, ctx') => (.ok v, cacheFac ctx' name v)
    | r => r

/-- Which branch of Context.prototype.getInstance's executor runs
(part_005 lines 153-164): serve the context cache only when the cached
value is truthy, a factory exists and its scope is not 'prototype';
otherwise take the build path when a factory exists; otherwise resolve
null. -/
inductive GetPath where
  | cachedHit (v : Value)
  | buildPath (fac : InstanceFactory)
  | noFactory

/-- Dispatch of Context.prototype.getInstance (part_005 lines 150-167):
the branch selected by the executor body. -/
def getInstancePath (ctx : Context) (name : Name) : GetPath :=
  let instv := jsRead ctx.instances name
  match lookupA ctx.factories name with
  | some fac =>
      if truthy instv ∧ fac.scope ≠ "prototype" then .cachedHit instv
      else .buildPath fac
  | none => .noFactory

/-- Context.prototype.getInstance (part_005 lines 150-167), linearized
and bounded by fuel: a cached truthy non-prototype instance resolves
immediately; with a registered factory the build runs and a successful
result is cached into `Context.instances` (line 158's
`.then(cache(self, name))`); an unregistered name resolves to null. -/
def getInstanceF : Nat → Context → Name → Res × Context
  | 0, ctx, _ => (.outOfFuel, ctx)
  | fuel + 1, ctx, name =>
      match getInstancePath ctx name with
      | .cachedHit v => (.ok v, ctx)
      | .noFactory => (.ok .vNull, ctx)
      | .buildPath fac =>
          match build (fun c n => getInstanceF fuel c n) ctx name fac with
          | (.ok v, ctx') => (.ok v, cacheCtx ctx' name v)
          | r => r

/-- Outcome of a getInstances call: a mapping from name to instance or
instance array, or the first failure. -/
inductive ManyRes where
  | ok (m : List (Name × Value))
  | err (e : Value)
  | outOfFuel

/-- Keys of a JS object built by inserting pairs left to right: each key
in order of first occurrence (R.groupBy builds such an object). -/
def firstKeys : List (Name × Value) → List Name
  | [] => []
  | (n, _) :: rest => n :: (firstKeys rest).filter (fun m => m ≠ n)

/-- R.groupBy of name-value pairs by their name (part_005 lines
193-195): each first-occurrence key mapped to the sublist of pairs
carrying it, in order. -/
def groupByName (pairs : List (Name × Value)) : List (Name × List (Name × Value)) :=
  (firstKeys pairs).map (fun n => (n, pairs.filter (fun p => p.1 = n)))

/-- R.chain over a group, extracting each pair's instance (part_005
lines 190-192): Ramda's chain is map followed by a shallow flatten, so
an instance that is itself an array is spliced into the group while any
other instance contributes itself. -/
def chainSnd (grp : List (Name × Value)) : List Value :=
  grp.foldr
    (fun p acc =>
      match p.2 with
      | .vArr xs => xs ++ acc
      | v => v :: acc)
    []

/-- Unpack a one-element group to its single value, keep larger (or
empty) groups as arrays (part_005 lines 186-189). -/
def unwrapSingle : List Value → Value
  | [v] => v
  | l => .vArr l

/-- The result-shaping pipeline of Context.prototype.getInstances
(part_005 lines 184-197): zip the requested names with the resolved
instances, group by name, extract and shallow-flatten the instances per
group, and unpack single-element groups. -/
def groupPipeline (names : List Name) (vals : List Value) : List (Name × Value) :=
  (groupByName (names.zip vals)).map (fun p => (p.1, unwrapSingle (chainSnd p.2)))

/-- Context.prototype.getInstances (part_005 lines 178-199):
`Promise.all` over getInstance of each name (issued in order), then the
grouping pipeline. -/
def getInstances (fuel : Nat) (ctx : Context) (names : List Name) : ManyRes × Context :=
  let rc := mapGetInstance (fun c n => getInstanceF fuel c n) names ctx
  match allRes rc.1 with
  | .ok vals => (.ok (groupPipeline names vals), rc.2)
  | .err e => (.err e, rc.2)
  | .outOfFuel => (.outOfFuel, rc.2)

/-- The stand-in factory method that the InstanceFactory constructor
installs for a pre-canned instance, `function(callback) return instance`
(part_005 lines 16-18). Its async kind is forced to false, so only the
synchronous path could ever reach it, and only when the literal itself
is null or undefined; the closure leaves the fresh receiver untouched,
modelled as a bare object of identity 0. The closure's own return value
reads a leaked global and is discarded by the synchronous path; it is
recorded here as the registered value. The promise and callback fields
are unreachable (async is never 'promise' or 'callback' for a literal
record) and mirror the literal. -/
def literalClosure (v : Value) : FactoryMethod where
  promiseRun := fun _ _ => .ok v
  callbackRun := fun _ _ => (.vNull, v)
  constructRun := fun _ _ => .ok (.vObj 0)
  returnRun := fun _ _ => v

/-- Either a factory function or a pre-canned instance, the first
argument of register (JS distinguishes them with instanceof Function). -/
inductive FactoryOrInstance where
  | method (f : FactoryMethod)
  | literal (v : Value)

/-- The InstanceFactory constructor (part_005 lines 9-23): a function
not forced to be an instance becomes the factory method with the given
async kind (defaulted to false); anything else is stored as the cached
instance with the stand-in closure and async false. Scope defaults to
'singleton' and dependencies to the empty list. A factory function
stored as a literal instance (forceInstance with a function) lies
outside the modelled value universe and no claim exercises it; its
stored instance is recorded as undefined. -/
def InstanceFactory.make (name : Name) (fmi : FactoryOrInstance) (forceInstance : Bool)
    (scope : Option String) (async : Option AsyncKind) (dependencies : Option (List Name)) :
    InstanceFactory :=
  match fmi, forceInstance with
  | .method f, false =>
      { name := name, factoryMethod := f, inst := .vUndefined,
        async := async.getD .sync, scope := scope.getD "singleton",
        dependencies := dependencies.getD [] }
  | .method _, true =>
      { name := name, factoryMethod := literalClosure .vUndefined, inst := .vUndefined,
        async := .sync, scope := scope.getD "singleton",
        dependencies := dependencies.getD [] }
  | .literal v, _ =>
      { name := name, factoryMethod := literalClosure v, inst := v,
        async := .sync, scope := scope.getD "singleton",
        dependencies := dependencies.getD [] }

/-- Context.prototype.register (part_005 lines 117-119): store a new
InstanceFactory under the name. -/
def Context.register (ctx : Context) (name : Name) (fmi : FactoryOrInstance)
    (forceInstance : Bool) (scope : Option String) (async : Option AsyncKind)
    (dependencies : Option (List Name)) : Context :=
  { ctx with
      factories := insertA ctx.factories name
        (InstanceFactory.make name fmi forceInstance scope async dependencies) }

/-- The synthetic sink used for zero-dependency providers (part_005
line 205). -/
def DUMMY_DEPENDENT : Name := "__DUMMY_DEPENDENT__"

/-- Edges contributed by one InstanceFactory (part_005 lines 356-364):
a provider with no dependencies contributes a single fallback edge to
the synthetic sink, otherwise one edge from each dependency to the
provider. -/
def edgesForInstance (fac : InstanceFactory) : List (Name × Name) :=
  if fac.dependencies.length = 0 then [(fac.name, DUMMY_DEPENDENT)]
  else fac.dependencies.map (fun dependency => (dependency, fac.name))

/-- buildEdges (part_005 lines 348-350): the DAG edges of all registered
factories, in registration order. -/
def buildEdges (instanceFactories : List (Name × InstanceFactory)) : List (Name × Name) :=
  (instanceFactories.map (fun p => edgesForInstance p.2)).flatten

/-- Outcome of an eager bootstrap pass. -/
inductive BootRes where
  | ok (ctx : Context)
  | err (e : Value)
  | cycleErr
  | outOfFuel

/-- Does no remaining edge point into the node? Such a node is eligible
for the topological traversal. -/
def noIncoming (edges : List (Name × Name)) (n : Name) : Bool :=
  edges.all (fun e => e.2 ≠ n)

/-- Nodes of the DAG: every endpoint of an edge. -/
def nodesOf (edges : List (Name × Name)) : List Name :=
  (edges.map (fun e => e.1) ++ edges.map (fun e => e.2)).dedup

/-- Modelled from the spec: the breeze-dag traversal that traverseDag
(part_005 lines 374-390) delegates to is an external library not under
src/. Per spec section 4.3, the traversal repeatedly takes a node all of
whose dependency edges are resolved, runs the task (here
context.getInstance, whose failure aborts the traversal with that
error), and removes the node and its outgoing edges; if no eligible node
remains while unvisited nodes exist, it fails with a cycle error. The
function is total (it recurses on a strictly shrinking pending list), so
the traversal always terminates. -/
def traverseDagGo (fuel : Nat) (edges : List (Name × Name)) :
    Nat → List Name → Context → BootRes
  | _, [], ctx => .ok ctx
  | 0, _ :: _, _ => .outOfFuel
  | steps + 1, pending, ctx =>
      match pending.find? (fun n => noIncoming edges n) with
      | none => .cycleErr
      | some n =>
          match getInstanceF fuel ctx n with
          | (.ok _, ctx') =>
              traverseDagGo fuel (edges.filter (fun e => e.1 ≠ n)) steps
                (pending.erase n) ctx'
          | (.err e, _) => .err e
          | (.outOfFuel, _) => .outOfFuel

/-- Entry point of the traversal: the step budget is the number of
pending nodes, which suffices because every step removes the found node
from the pending list, so the budget is never exhausted and the
traversal always terminates. -/
def traverseDag (fuel : Nat) (edges : List (Name × Name)) (pending : List Name)
    (ctx : Context) : BootRes :=
  traverseDagGo fuel edges pending.length pending ctx

/-- Context.prototype.bootstrap with eager=true (part_005 lines 129-137)
for a context whose factories were registered explicitly and whose root
path list is empty: findFiles over no roots yields no files and
applyAnnotations registers nothing, so the pass reduces to populate
(part_005 lines 338-340): build the DAG edges and traverse them. -/
def bootstrapEager (fuel : Nat) (ctx : Context) : BootRes :=
  let edges := buildEdges ctx.factories
  traverseDag fuel edges (nodesOf edges) ctx

/-- What one Context.getInstance call commits to during its synchronous
executor run (part_005 lines 152-166): the executor body, the dispatch
of build (lines 38-41) and singletonBuild's cache test (line 54) all run
synchronously before any deferred continuation, so by the time control
returns to the event loop the call has either resolved from a cache or
committed to running the factory build. -/
inductive Commit where
  | resolved (v : Value)
  | cachedSingleton (fac : InstanceFactory)
  | runBuild (fac : InstanceFactory)

/-- The commitment made by the synchronous part of one getInstance call
against the current state. -/
def executorCommit (ctx : Context) (name : Name) : Commit :=
  match getInstancePath ctx name with
  | .cachedHit v => .resolved v
  | .noFactory => .resolved .vNull
  | .buildPath fac =>
      if fac.scope = "prototype" then .runBuild fac
      else if looseEqUndefined fac.inst then .runBuild fac
      else .cachedSingleton fac

/-- Run the deferred continuations of one committed getInstance call:
a resolved commit just delivers its value; a factory-cached singleton
delivers the cached instance and re-runs both cache writes; a committed
build runs prototypeBuild and, on success, the factory-level cache (for
non-prototype scope) followed by the context-level cache — exactly the
continuation chain of part_005 lines 38-41 and 158. -/
def completeCommit (fuel : Nat) (ctx : Context) (name : Name) : Commit → Res × Context
  | .resolved v => (.ok v, ctx)
  | .cachedSingleton fac =>
      (.ok fac.inst, cacheCtx (cacheFac ctx name fac.inst) name fac.inst)
  | .runBuild fac =>
      match prototypeBuild (fun c n => getInstanceF fuel c n) ctx name fac with
      | (.ok v, ctx') =>
          let ctx'' := if fac.scope = "prototype" then ctx' else cacheFac ctx' name v
          (.ok v, cacheCtx ctx'' name v)
      | r => r

/-- Complete a list of commitments in issue order, threading state. -/
def runCommits (fuel : Nat) (name : Name) : List Commit → Context → List Res × Context
  | [], ctx => ([], ctx)
  | c :: rest, ctx =>
      let rc := completeCommit fuel ctx name c
      let rc' := runCommits fuel name rest rc.2
      (rc.1 :: rc'.1, rc'.2)

/-- Event-loop linearization of k getInstance calls for the same name
issued back to back, before any build's deferred continuation runs: all
k executor bodies run synchronously in issue order against the initial
state (the executor mutates nothing, every cache write being deferred,
so each observes the same state and makes the same commitment), and only
then do the deferred build continuations run to completion, in issue
order. -/
def concurrentGetInstance (fuel : Nat) (ctx : Context) (name : Name) (k : Nat) :
    List Res × Context :=
  runCommits fuel name (List.replicate k (executorCommit ctx name)) ctx

/-- The registered names with their scopes: the part of a context that
no container operation ever changes. -/
def scopesOf (ctx : Context) : List (Name × String) :=
  ctx.factories.map (fun p => (p.1, p.2.scope))

/-- A getInstance implementation that preserves the registered scopes. -/
def PreservesScopes (gi : GetInst) : Prop :=
  ∀ ctx n, scopesOf (gi ctx n).2 = scopesOf ctx

/-- Resolution of the i-th requested name: getInstance of it run in the
state reached after resolving the first i names in order. -/
def resolveNth (gi : GetInst) (deps : List Name) (ctx : Context) (i : Nat) : Res × Context :=
  gi (mapGetInstance gi (deps.take i) ctx).2 (deps.getD i "")

/-- Instances resolved for each occurrence of a name in the request
list, in occurrence order. -/
def occVals (names : List Name) (vals : List Value) (n : Name) : List Value :=
  ((names.zip vals).filter (fun p => p.1 = n)).map (fun p => p.2)

/-- Consecutive pairs of a cyclic dependency chain: each listed name
paired with the next one around the cycle. -/
def cyclePairs (c : List Name) : List (Name × Name) :=
  c.zip (c.rotate 1)

/-! Concrete fixtures used by the counterexamples and witnesses. -/

/-- Convenience builder for a promise-convention factory whose promise
outcome is given as a function of the arguments and the invocation
index. -/
def promFac (name : Name) (scope : String) (deps : List Name)
    (f : List Value → Nat → Except Value Value) : InstanceFactory where
  name := name
  factoryMethod :=
    { promiseRun := f
      callbackRun := fun _ _ => (.vNull, .vUndefined)
      constructRun := fun _ _ => .ok (.vObj 0)
      returnRun := fun _ _ => .vUndefined }
  inst := .vUndefined
  async := .promise
  scope := scope
  dependencies := deps

/-- A singleton factory producing null on its first invocation and a
distinct object afterwards. -/
def facS : InstanceFactory :=
  promFac "s" "singleton" [] (fun _ k => .ok (if k = 0 then .vNull else .vObj 1))

def ctxS : Context := { factories := [("s", facS)], instances := [], calls := [] }

/-- A singleton factory producing a fixed truthy string. -/
def facT : InstanceFactory :=
  promFac "t" "singleton" [] (fun _ _ => .ok (.vStr "hi"))

def ctxT : Context := { factories := [("t", facT)], instances := [], calls := [] }

/-- A singleton factory producing a fresh object per invocation. -/
def facSvc : InstanceFactory :=
  promFac "svc" "singleton" [] (fun _ k => .ok (.vObj k))

def ctxSvc : Context := { factories := [("svc", facSvc)], instances := [], calls := [] }

/-- A two-dependency provider whose instance collects its arguments,
one dependency registered as a literal and one unregistered. -/
def facDeps : InstanceFactory :=
  promFac "svc3" "singleton" ["a", "missing"] (fun args _ => .ok (.vArr args))

def ctx3 : Context :=
  { factories :=
      [("a", InstanceFactory.make "a" (.literal (.vStr "A")) false none none none),
       ("svc3", facDeps)],
    instances := [], calls := [] }

/-- A prototype factory producing a fresh object per invocation. -/
def facP : InstanceFactory :=
  promFac "p" "prototype" [] (fun _ k => .ok (.vObj k))

def ctxP : Context := { factories := [("p", facP)], instances := [], calls := [] }

/-- A Direct-convention factory whose constructed receiver is the object
of identity 1 but which explicitly returns the object of identity 99. -/
def facRet : InstanceFactory where
  name := "returned"
  factoryMethod :=
    { promiseRun := fun _ _ => .ok .vUndefined
      callbackRun := fun _ _ => (.vNull, .vUndefined)
      constructRun := fun _ _ => .ok (.vObj 1)
      returnRun := fun _ _ => .vObj 99 }
  inst := .vUndefined
  async := .promise
  scope := "singleton"
  dependencies := []

/-- The same factory registered under the synchronous convention. -/
def facRetSync : InstanceFactory := { facRet with async := .sync }

def ctxRet : Context := { factories := [("returned", facRetSync)], instances := [], calls := [] }

/-- A promise-convention connect factory, as in the spec's database
example. -/
def facProm : InstanceFactory :=
  promFac "withpromise" "singleton" ["db.config"] (fun _ _ => .ok (.vStr "Connection"))

/-- The equivalent callback-convention connect factory. -/
def facCb : InstanceFactory where
  name := "my.connection"
  factoryMethod :=
    { promiseRun := fun _ _ => .ok .vUndefined
      callbackRun := fun _ _ => (.vNull, .vStr "Connection")
      constructRun := fun _ _ => .ok (.vObj 0)
      returnRun := fun _ _ => .vUndefined }
  inst := .vUndefined
  async := .callback
  scope := "singleton"
  dependencies := ["db.config"]

def ctxEmpty : Context := { factories := [], instances := [], calls := [] }

/-- A singleton whose factory always produces null, shown in the state
reached after its first build (both cache levels hold null). -/
def facN : InstanceFactory :=
  { promFac "n" "singleton" [] (fun _ _ => .ok .vNull) with inst := .vNull }

def ctxN : Context :=
  { factories := [("n", facN)], instances := [("n", .vNull)], calls := [] }

/-- Cyclically dependent providers A and B, and a provider C whose
build rejects. -/
def facA : InstanceFactory := promFac "A" "singleton" ["B"] (fun _ _ => .ok (.vObj 10))

def facB : InstanceFactory := promFac "B" "singleton" ["A"] (fun _ _ => .ok (.vObj 11))

def facBoom : InstanceFactory := promFac "C" "singleton" [] (fun _ _ => .error (.vStr "boom"))

def ctxAB : Context := { factories := [("A", facA), ("B", facB)], instances := [], calls := [] }

def ctxABC : Context :=
  { factories := [("A", facA), ("B", facB), ("C", facBoom)], instances := [], calls := [] }

/-- A name registered as a literal one-element array instance. -/
def ctx8 : Context :=
  { factories :=
      [("x", InstanceFactory.make "x" (.literal (.vArr [.vNum 7])) false none none none)],
    instances := [], calls := [] }

/-- Two names registered as literal scalar instances. -/
def ctx8w : Context :=
  { factories :=
      [("x", InstanceFactory.make "x" (.literal (.vNum 1)) false none none none),
       ("y", InstanceFactory.make "y" (.literal (.vStr "s")) false none none none)],
    instances := [], calls := [] }

/-! Helper lemmas about the association-list operations. -/

theorem lookupA_insertA_self {α : Type} (l : List (Name × α)) (k : Name) (v : α) :
    lookupA (insertA l k v) k = some v := by
  induction l with
  | nil => simp [insertA, lookupA]
  | cons p rest ih =>
      by_cases h : p.1 = k
      · simp [insertA, lookupA, h]
      · simp [insertA, lookupA, h, ih]

theorem insertA_self {α : Type} {l : List (Name × α)} {k : Name} {v : α}
    (h : lookupA l k = some v) : insertA l k v = l := by
  induction l with
  | nil => simp [lookupA] at h
  | cons p rest ih =>
      obtain ⟨a, b⟩ := p
      by_cases hk : a = k
      · subst hk
        simp [lookupA] at h
        simp [insertA, h]
      · simp [lookupA, hk] at h
        simp [insertA, hk, ih h]

theorem lookupA_updateA_self {α : Type} (f : α → α) {l : List (Name × α)} {k : Name} {w : α}
    (h : lookupA l k = some w) : lookupA (updateA f l k) k = some (f w) := by
  induction l with
  | nil => simp [lookupA] at h
  | cons p rest ih =>
      by_cases hk : p.1 = k
      · simp [lookupA, hk] at h
        simp [updateA, lookupA, hk, h]
      · simp [lookupA, hk] at h
        simp [updateA, lookupA, hk, ih h]

theorem updateA_self {α : Type} {f : α → α} {l : List (Name × α)} {k : Name} {w : α}
    (h : lookupA l k = some w) (hf : f w = w) : updateA f l k = l := by
  induction l with
  | nil => simp [updateA]
  | cons p rest ih =>
      obtain ⟨a, b⟩ := p
      by_cases hk : a = k
      · subst hk
        simp [lookupA] at h
        subst h
        simp [updateA, hf]
      · simp [lookupA, hk] at h
        simp [updateA, hk, ih h]

theorem lookupA_map {α β : Type} (g : α → β) (l : List (Name × α)) (k : Name) :
    lookupA (l.map (fun p => (p.1, g p.2))) k = Option.map g (lookupA l k) := by
  induction l with
  | nil => simp [lookupA]
  | cons p rest ih =>
      by_cases hk : p.1 = k
      · simp [lookupA, hk]
      · simp [lookupA, hk, ih]

theorem lookupA_of_mem_keys {β : Type} (g : Name → β) (keys : List Name) (k : Name)
    (h : k ∈ keys) : lookupA (keys.map (fun n => (n, g n))) k = some (g k) := by
  induction keys with
  | nil => cases h
  | cons n rest ih =>
      by_cases hk : n = k
      · subst hk; simp [lookupA]
      · rcases List.mem_cons.mp h with h' | h'
        · exact absurd h'.symm hk
        · simp [lookupA, hk, ih h']

/-! Scope preservation: running any part of the container never changes
which names are registered nor the scope recorded for them (only the
factory-level instance cache, the context-level instance cache, and the
ghost call trace evolve). -/

theorem map_updateA {α β : Type} (g : α → β) (f : α → α) (l : List (Name × α)) (k : Name)
    (hgf : ∀ x, g (f x) = g x) :
    (updateA f l k).map (fun p => (p.1, g p.2)) = l.map (fun p => (p.1, g p.2)) := by
  induction l with
  | nil => simp [updateA]
  | cons p rest ih =>
      by_cases hk : p.1 = k
      · simp [updateA, hk, hgf]
      · simp [updateA, hk, ih]

theorem scopesOf_cacheCtx (ctx : Context) (name : Name) (v : Value) :
    scopesOf (cacheCtx ctx name v) = scopesOf ctx := rfl

theorem scopesOf_cacheFac (ctx : Context) (name : Name) (v : Value) :
    scopesOf (cacheFac ctx name v) = scopesOf ctx := by
  unfold scopesOf cacheFac
  exact map_updateA _ _ _ _ (fun x => rfl)

theorem scopesOf_create (ctx : Context) (name : Name) (fac : InstanceFactory)
    (args : List Value) : scopesOf (create ctx name fac args).2 = scopesOf ctx := by
  unfold create
  cases fac.async <;> simp [scopesOf]
  · split <;> simp [scopesOf]

theorem scopesOf_mapGetInstance {gi : GetInst} (hgi : PreservesScopes gi)
    (names : List Name) (ctx : Context) :
    scopesOf (mapGetInstance gi names ctx).2 = scopesOf ctx := by
  induction names generalizing ctx with
  | nil => rfl
  | cons n rest ih =>
      simp only [mapGetInstance]
      rw [ih, hgi]

theorem scopesOf_getArgs {gi : GetInst} (hgi : PreservesScopes gi)
    (deps : List Name) (ctx : Context) :
    scopesOf (getArgs gi deps ctx).2 = scopesOf ctx :=
  scopesOf_mapGetInstance hgi deps ctx

theorem scopesOf_prototypeBuild {gi : GetInst} (hgi : PreservesScopes gi)
    (ctx : Context) (name : Name) (fac : InstanceFactory) :
    scopesOf (prototypeBuild gi ctx name fac).2 = scopesOf ctx := by
  unfold prototypeBuild
  rcases h : getArgs gi fac.dependencies ctx with ⟨out, ctx'⟩
  have hctx' : scopesOf ctx' = scopesOf ctx := by
    have := scopesOf_getArgs hgi fac.dependencies ctx
    rw [h] at this; exact this
  cases out with
  | ok args => simp only []; rw [scopesOf_create, hctx']
  | err e => exact hctx'
  | outOfFuel => exact hctx'

theorem scopesOf_singletonBuild {gi : GetInst} (hgi : PreservesScopes gi)
    (ctx : Context) (name : Name) (fac : InstanceFactory) :
    scopesOf (singletonBuild gi ctx name fac).2 = scopesOf ctx := by
  unfold singletonBuild
  split
  · exact scopesOf_prototypeBuild hgi ctx name fac
  · rfl

theorem scopesOf_build {gi : GetInst} (hgi : PreservesScopes gi)
    (ctx : Context) (name : Name) (fac : InstanceFactory) :
    scopesOf (build gi ctx name fac).2 = scopesOf ctx := by
  unfold build
  split
  · exact scopesOf_prototypeBuild hgi ctx name fac
  · rcases h : singletonBuild gi ctx name fac with ⟨r, ctx'⟩
    have hctx' : scopesOf ctx' = scopesOf ctx := by
      have := scopesOf_singletonBuild hgi ctx name fac
      rw [h] at this; exact this
    cases r with
    | ok v => simp only []; rw [scopesOf_cacheFac, hctx']
    | err e => exact hctx'
    | outOfFuel => exact hctx'

theorem scopesOf_getInstanceF (fuel : Nat) :
    PreservesScopes (fun c n => getInstanceF fuel c n) := by
  induction fuel with
  | zero => intro ctx n; rfl
  | succ fuel ih =>
      intro ctx n
      show scopesOf (getInstanceF (fuel + 1) ctx n).2 = scopesOf ctx
      rcases hp : getInstancePath ctx n with v | fac
      · simp only [getInstanceF, hp]
      · rcases hb : build (fun c n => getInstanceF fuel c n) ctx n fac with ⟨r, ctx'⟩
        have hctx' : scopesOf ctx' = scopesOf ctx := by
          have hall := scopesOf_build ih ctx n fac
          rw [hb] at hall; exact hall
        cases r with
        | ok v =>
            simp only [getInstanceF, hp, hb]
            rw [scopesOf_cacheCtx, hctx']
        | err e => simp only [getInstanceF, hp, hb]; exact hctx'
        | outOfFuel => simp only [getInstanceF, hp, hb]; exact hctx'
      · simp only [getInstanceF, hp]

/-! Structural lemmas about sequential dependency resolution. -/

theorem mapGetInstance_length (gi : GetInst) (names : List Name) (ctx : Context) :
    (mapGetInstance gi names ctx).1.length = names.length := by
  induction names generalizing ctx with
  | nil => rfl
  | cons n rest ih => simp [mapGetInstance, ih]

theorem mapGetInstance_getD (gi : GetInst) (deps : List Name) (ctx : Context) (i : Nat)
    (h : i < deps.length) :
    (mapGetInstance gi deps ctx).1.getD i .outOfFuel = (resolveNth gi deps ctx i).1 := by
  induction deps generalizing ctx i with
  | nil => simp at h
  | cons d rest ih =>
      cases i with
      | zero => simp [mapGetInstance, resolveNth, lookupA]
      | succ i =>
          have h' : i < rest.length := by simpa using h
          simp only [mapGetInstance, resolveNth, List.take, List.getD_cons_succ]
          exact ih (gi ctx d).2 i h'

theorem resolveNth_state (gi : GetInst) (deps : List Name) (ctx : Context) (i : Nat)
    (h : i < deps.length) :
    (resolveNth gi deps ctx i).2 = (mapGetInstance gi (deps.take (i + 1)) ctx).2 := by
  induction deps generalizing ctx i with
  | nil => simp at h
  | cons d rest ih =>
      cases i with
      | zero => simp [mapGetInstance, resolveNth]
      | succ i =>
          have h' : i < rest.length := by simpa using h
          simp only [resolveNth, List.take, List.getD_cons_succ, mapGetInstance]
          exact ih (gi ctx d).2 i h'

theorem allRes_ok {rs : List Res} {args : List Value} (h : allRes rs = .ok args) :
    rs = args.map Res.ok := by
  induction rs generalizing args with
  | nil =>
      simp [allRes] at h
      simp [← h]
  | cons r rest ih =>
      cases r with
      | ok v =>
          simp only [allRes] at h
          rcases hr : allRes rest with vs | e
          · rw [hr] at h
            simp only [ArgsOut.ok.injEq] at h
            subst h
            simp [ih hr]
          · rw [hr] at h; cases h
          · rw [hr] at h; cases h
      | err e => simp [allRes] at h
      | outOfFuel => simp [allRes] at h

theorem getD_map_ok (args : List Value) (i : Nat) (h : i < args.length) :
    (args.map Res.ok).getD i .outOfFuel = .ok (args.getD i .vUndefined) := by
  induction args generalizing i with
  | nil => simp at h
  | cons v rest ih =>
      cases i with
      | zero => simp
      | succ i => simpa using ih i (by simpa using h)

/-- A successful getInstance with a registered factory leaves the built
(or cache-served) instance stored in Context.instances under the name. -/
theorem getInstanceF_ok_lookup {fuel : Nat} {ctx : Context} {name : Name}
    {fac : InstanceFactory} {v : Value} {ctx₁ : Context}
    (hfac : lookupA ctx.factories name = some fac)
    (h : getInstanceF (fuel + 1) ctx name = (.ok v, ctx₁)) :
    lookupA ctx₁.instances name = some v := by
  have hdisp : getInstancePath ctx name =
      (if truthy (jsRead ctx.instances name) ∧ fac.scope ≠ "prototype"
        then .cachedHit (jsRead ctx.instances name) else .buildPath fac) := by
    simp [getInstancePath, hfac]
  by_cases hc : truthy (jsRead ctx.instances name) ∧ fac.scope ≠ "prototype"
  · rw [if_pos hc] at hdisp
    simp only [getInstanceF, hdisp] at h
    have hctx : ctx = ctx₁ := congrArg Prod.snd h
    have hv' : jsRead ctx.instances name = v := by
      have hfst := congrArg Prod.fst h
      simpa using hfst
    subst hctx
    rcases hl : lookupA ctx.instances name with _ | w
    · exfalso
      have hu : jsRead ctx.instances name = .vUndefined := by simp [jsRead, hl]
      rw [hu] at hc
      exact absurd hc.1 (by simp [truthy])
    · have hw : jsRead ctx.instances name = w := by simp [jsRead, hl]
      rw [hw] at hv'
      rw [hv']
  · rw [if_neg hc] at hdisp
    simp only [getInstanceF, hdisp] at h
    rcases hb : build (fun c n => getInstanceF fuel c n) ctx name fac with ⟨r, ctx'⟩
    rw [hb] at h
    cases r with
    | ok w =>
        simp only [Prod.mk.injEq, Res.ok.injEq] at h
        obtain ⟨hv, hctx⟩ := h
        subst hv
        rw [← hctx]
        exact lookupA_insertA_self ..
    | err e => simp at h
    | outOfFuel => simp at h

/-- Scope preservation, read back through lookups: if the scope maps
agree, a registered factory keeps its registration (with equal scope)
and an unregistered name stays unregistered. -/
theorem lookup_scope_of_scopesOf {ctx ctx' : Context}
    (h : scopesOf ctx' = scopesOf ctx) (name : Name) :
    Option.map InstanceFactory.scope (lookupA ctx'.factories name)
      = Option.map InstanceFactory.scope (lookupA ctx.factories name) := by
  have h1 := lookupA_map InstanceFactory.scope ctx'.factories name
  have h2 := lookupA_map InstanceFactory.scope ctx.factories name
  unfold scopesOf at h
  rw [← h1, ← h2, h]

/-- The invocation performed by create is appended to the call trace,
whatever the calling convention and outcome. -/
theorem create_calls (ctx : Context) (name : Name) (fac : InstanceFactory)
    (args : List Value) :
    (create ctx name fac args).2.calls = ctx.calls ++ [(name, args)] := by
  unfold create
  cases fac.async
  · rfl
  · rfl
  · simp only []
    split <;> rfl

/-- C9: a FutureReturning (async='promise') provider whose factory
returns a promise fulfilled with v and a CallbackStyle
(async='callback') provider whose factory calls its trailing callback
with (null, v) both yield the instance v from the build, given the same
resolved arguments. -/
theorem c9_conventions_equivalent (ctx₁ ctx₂ : Context) (name₁ name₂ : Name)
    (fac₁ fac₂ : InstanceFactory) (args : List Value) (v : Value)
    (h₁a : fac₁.async = .promise)
    (h₁ : fac₁.factoryMethod.promiseRun args (invocationCount ctx₁ name₁) = .ok v)
    (h₂a : fac₂.async = .callback)
    (h₂ : fac₂.factoryMethod.callbackRun args (invocationCount ctx₂ name₂) = (.vNull, v)) :
    (create ctx₁ name₁ fac₁ args).1 = .ok v ∧ (create ctx₂ name₂ fac₂ args).1 = .ok v := by
  constructor
  · simp [create, h₁a, h₁, resOfExcept]
  · simp [create, h₂a, h₂, truthy]

/-- C9 witness: the two concrete connect factories, one promise-style
and one callback-style, both produce the same connection string. -/
theorem c9_witness :
    (create ctxEmpty "withpromise" facProm [.vStr "mongodb"]).1 = .ok (.vStr "Connection")
    ∧ (create ctxEmpty "my.connection" facCb [.vStr "mongodb"]).1 = .ok (.vStr "Connection") :=
  c9_conventions_equivalent ctxEmpty ctxEmpty "withpromise" "my.connection" facProm facCb
    [.vStr "mongodb"] (.vStr "Connection") rfl rfl rfl rfl

/-- C7 counterexample: a Direct-convention factory whose apply leaves
its receiver as the object of identity 1 while explicitly returning the
distinct object of identity 99. The claim says the produced instance is
the explicitly returned value, but create (part_005 lines 78-81)
discards the return value and produces the constructed receiver. -/
theorem c7_counterexample :
    facRetSync.factoryMethod.returnRun [] 0 = .vObj 99
    ∧ (create ctxRet "returned" facRetSync []).1 = .ok (.vObj 1)
    ∧ Value.vObj 1 ≠ Value.vObj 99 := by
  refine ⟨rfl, rfl, ?_⟩
  intro h
  simp at h

/-- C7 amended: a Direct-convention (synchronous, async=false) factory
is invoked as a constructor with the resolved dependencies as positional
arguments, and the newly constructed receiver is always the produced
instance; the factory's explicit return value is ignored (replacing it
by any other function changes nothing). -/
theorem c7_direct_returns_receiver (ctx : Context) (name : Name) (fac : InstanceFactory)
    (args : List Value) (h : fac.async = .sync) :
    (create ctx name fac args).1
        = resOfExcept (fac.factoryMethod.constructRun args (invocationCount ctx name))
    ∧ ∀ g, (create ctx name
          { fac with factoryMethod := { fac.factoryMethod with returnRun := g } } args).1
        = (create ctx name fac args).1 := by
  constructor
  · simp [create, h]
  · intro g
    simp [create, h]

/-- C7 witness: the amended statement evaluated on the concrete
explicit-return factory. -/
theorem c7_witness :
    (create ctxRet "returned" facRetSync []).1
      = resOfExcept (facRetSync.factoryMethod.constructRun []
          (invocationCount ctxRet "returned")) :=
  (c7_direct_returns_receiver ctxRet "returned" facRetSync [] rfl).1

/-- C3: when the factory of a provider is invoked, the arguments are
exactly the resolved instances of its declared dependencies, in declared
order, passed positionally — the i-th argument is the outcome of
getInstance for the i-th dependency, run after the dependencies before
it — and every dependency's lookup has completed (delivered its ok
outcome) before the invocation, which is appended to the trace after all
invocations performed during dependency resolution. -/
theorem c3_args_positional (fuel : Nat) (ctx : Context) (name : Name)
    (fac : InstanceFactory) (args : List Value) (ctx₁ : Context)
    (h : getArgs (fun c n => getInstanceF fuel c n) fac.dependencies ctx
        = (.ok args, ctx₁)) :
    args.length = fac.dependencies.length
    ∧ (∀ i, i < fac.dependencies.length →
        (resolveNth (fun c n => getInstanceF fuel c n) fac.dependencies ctx i).1
          = .ok (args.getD i .vUndefined))
    ∧ (prototypeBuild (fun c n => getInstanceF fuel c n) ctx name fac).2.calls
        = ctx₁.calls ++ [(name, args)] := by
  rcases hm : mapGetInstance (fun c n => getInstanceF fuel c n) fac.dependencies ctx
    with ⟨rs, ctxm⟩
  have hgeq : getArgs (fun c n => getInstanceF fuel c n) fac.dependencies ctx
      = (allRes rs, ctxm) := by
    simp only [getArgs, hm]
  have hga : (allRes rs, ctxm) = (.ok args, ctx₁) := by
    rw [← hgeq]; exact h
  have hall : allRes rs = .ok args := congrArg Prod.fst hga
  have hctx : ctxm = ctx₁ := congrArg Prod.snd hga
  have hrs : rs = args.map Res.ok := allRes_ok hall
  have hlen : args.length = fac.dependencies.length := by
    have h1 := mapGetInstance_length (fun c n => getInstanceF fuel c n) fac.dependencies ctx
    rw [hm] at h1
    simp only [] at h1
    rw [hrs] at h1
    simpa using h1
  refine ⟨hlen, ?_, ?_⟩
  · intro i hi
    have hgd := mapGetInstance_getD (fun c n => getInstanceF fuel c n) fac.dependencies ctx i hi
    rw [hm] at hgd
    simp only [] at hgd
    rw [hrs] at hgd
    rw [← hgd]
    exact getD_map_ok args i (by rw [hlen]; exact hi)
  · simp only [prototypeBuild, h]
    exact create_calls ctx₁ name fac args

/-- C3 witness: the two-dependency provider gets its literal dependency
and the null for the unregistered one, positionally, with the invocation
appended after dependency resolution. -/
theorem c3_witness :
    [Value.vStr "A", Value.vNull].length = facDeps.dependencies.length
    ∧ (prototypeBuild (fun c n => getInstanceF 1 c n) ctx3 "svc3" facDeps).2.calls
        = (getArgs (fun c n => getInstanceF 1 c n) facDeps.dependencies ctx3).2.calls
          ++ [("svc3", [Value.vStr "A", Value.vNull])] := by
  have h := c3_args_positional 1 ctx3 "svc3" facDeps [Value.vStr "A", Value.vNull]
    (getArgs (fun c n => getInstanceF 1 c n) facDeps.dependencies ctx3).2 rfl
  exact ⟨h.1, h.2.2⟩

/-- C6: requesting a name with no registered provider resolves
successfully to null (leaving the state untouched), and a provider whose
dependency list names an unregistered provider receives null for that
positional argument rather than an error. -/
theorem c6_missing_resolves_null (fuel : Nat) :
    (∀ ctx name, lookupA ctx.factories name = none →
        getInstanceF (fuel + 1) ctx name = (.ok .vNull, ctx))
    ∧ ∀ (ctx ctx₁ : Context) (fac : InstanceFactory) (args : List Value) (i : Nat),
        i < fac.dependencies.length →
        getArgs (fun c n => getInstanceF fuel c n) fac.dependencies ctx
          = (.ok args, ctx₁) →
        lookupA ctx.factories (fac.dependencies.getD i "") = none →
        args.length = fac.dependencies.length ∧ args.getD i .vUndefined = .vNull := by
  constructor
  · intro ctx name h
    simp [getInstanceF, getInstancePath, h]
  · intro ctx ctx₁ fac args i hi h hnone
    have hmain := c3_args_positional fuel ctx (fac.dependencies.getD i "") fac args ctx₁ h
    refine ⟨hmain.1, ?_⟩
    have hres := hmain.2.1 i hi
    unfold resolveNth at hres
    set ctxi := (mapGetInstance (fun c n => getInstanceF fuel c n)
        (fac.dependencies.take i) ctx).2 with hctxi
    have hscopes : scopesOf ctxi = scopesOf ctx := by
      rw [hctxi]
      exact scopesOf_mapGetInstance (scopesOf_getInstanceF fuel) (fac.dependencies.take i) ctx
    have hl := lookup_scope_of_scopesOf hscopes (fac.dependencies.getD i "")
    rw [hnone] at hl
    have hnone' : lookupA ctxi.factories (fac.dependencies.getD i "") = none := by
      rcases hx : lookupA ctxi.factories (fac.dependencies.getD i "") with _ | fac'
      · rfl
      · rw [hx] at hl
        simp at hl
    cases fuel with
    | zero => simp [getInstanceF] at hres
    | succ f =>
        have hres' : (getInstanceF (f + 1) ctxi (fac.dependencies.getD i "")).1
            = Res.ok (args.getD i .vUndefined) := hres
        have hnull : getInstanceF (f + 1) ctxi (fac.dependencies.getD i "")
            = (.ok .vNull, ctxi) := by
          simp only [getInstanceF, getInstancePath, hnone']
        rw [hnull] at hres'
        exact (Res.ok.inj hres').symm

/-- C6 witness: the unregistered dependency of the concrete provider
arrives as the null positional argument. -/
theorem c6_witness :
    getInstanceF 2 ctx3 "missing" = (.ok .vNull, ctx3)
    ∧ [Value.vStr "A", Value.vNull].length = facDeps.dependencies.length
    ∧ [Value.vStr "A", Value.vNull].getD 1 .vUndefined = .vNull := by
  have h := c6_missing_resolves_null 1
  have hga : getArgs (fun c n => getInstanceF 1 c n) facDeps.dependencies ctx3
      = (.ok [Value.vStr "A", Value.vNull],
          (getArgs (fun c n => getInstanceF 1 c n) facDeps.dependencies ctx3).2) := rfl
  refine ⟨h.1 ctx3 "missing" rfl, ?_, rfl⟩
  exact (h.2 ctx3
    (getArgs (fun c n => getInstanceF 1 c n) facDeps.dependencies ctx3).2 facDeps
    [Value.vStr "A", Value.vNull] 1 (by decide) hga rfl).1

/-- C1 counterexample: a singleton factory whose first build succeeds
with null. The second getInstance call is not served from the cache (the
context-level check requires truthiness and the factory-level check uses
loose equality, under which null equals undefined), so the factory is
invoked a second time and may return a different instance: the two
successive calls return null and the object of identity 1, and the trace
records two invocations. -/
theorem c1_counterexample :
    (getInstanceF 2 ctxS "s").1 = .ok .vNull
    ∧ (getInstanceF 2 (getInstanceF 2 ctxS "s").2 "s").1 = .ok (.vObj 1)
    ∧ Value.vNull ≠ Value.vObj 1
    ∧ ((getInstanceF 2 (getInstanceF 2 ctxS "s").2 "s").2).calls
        = [("s", []), ("s", [])] := by
  refine ⟨rfl, rfl, ?_, rfl⟩
  intro h
  cases h

/-- C1 amended: for a singleton-scoped name whose build succeeds with a
truthy instance, a second getInstance call returns the identical
instance and the identical state — in particular the factory is not
invoked again (the call trace is unchanged). -/
theorem c1_singleton_cached (f₁ f₂ : Nat) (ctx : Context) (name : Name)
    (fac : InstanceFactory) (v : Value) (ctx₁ : Context)
    (hfac : lookupA ctx.factories name = some fac)
    (hscope : fac.scope ≠ "prototype")
    (h1 : getInstanceF (f₁ + 1) ctx name = (.ok v, ctx₁))
    (htruthy : truthy v = true) :
    getInstanceF (f₂ + 1) ctx₁ name = (.ok v, ctx₁) := by
  have hcached : lookupA ctx₁.instances name = some v := getInstanceF_ok_lookup hfac h1
  have hscopes : scopesOf ctx₁ = scopesOf ctx := by
    have hpre : scopesOf (getInstanceF (f₁ + 1) ctx name).2 = scopesOf ctx :=
      scopesOf_getInstanceF (f₁ + 1) ctx name
    rw [h1] at hpre
    exact hpre
  have hl := lookup_scope_of_scopesOf hscopes name
  rw [hfac] at hl
  rcases hfac' : lookupA ctx₁.factories name with _ | fac'
  · rw [hfac'] at hl
    simp at hl
  · rw [hfac'] at hl
    have hsc' : fac'.scope = fac.scope := by simpa using hl
    have hpath : getInstancePath ctx₁ name = .cachedHit v := by
      simp [getInstancePath, hfac', jsRead, hcached, htruthy, hsc', hscope]
    simp [getInstanceF, hpath]

/-- C1 witness: the truthy singleton is cached by its first build and
served unchanged by the second call. -/
theorem c1_witness :
    getInstanceF 1 (getInstanceF 2 ctxT "t").2 "t"
      = (.ok (.vStr "hi"), (getInstanceF 2 ctxT "t").2) :=
  c1_singleton_cached 1 0 ctxT "t" facT (.vStr "hi") (getInstanceF 2 ctxT "t").2
    rfl (by decide) rfl rfl

/-- C10: a falsy cached singleton instance is not recognized by the
context-level truthiness check, so the request re-enters the build path;
when both caches hold null specifically, the factory-level loose
equality against undefined also fails to recognize the cache, so the
factory is re-invoked (one more trace entry per request); a falsy but
non-null cached value, by contrast, short-circuits at the factory-level
cache: the call returns it without invoking the factory and leaves the
state exactly as it was. -/
theorem c10_falsy_cache_rebuilds (fuel : Nat) (ctx : Context) (name : Name)
    (fac : InstanceFactory) (v : Value)
    (hfac : lookupA ctx.factories name = some fac)
    (hscope : fac.scope ≠ "prototype")
    (hcached : lookupA ctx.instances name = some v)
    (hfalsy : truthy v = false) :
    getInstancePath ctx name = .buildPath fac
    ∧ (fac.inst = .vNull →
        ∀ args ctx₁,
          getArgs (fun c n => getInstanceF fuel c n) fac.dependencies ctx
            = (.ok args, ctx₁) →
          ((getInstanceF (fuel + 1) ctx name).2).calls = ctx₁.calls ++ [(name, args)])
    ∧ (looseEqUndefined fac.inst = false → fac.inst = v →
        getInstanceF (fuel + 1) ctx name = (.ok v, ctx)) := by
  have hpath : getInstancePath ctx name = .buildPath fac := by
    simp [getInstancePath, hfac, jsRead, hcached, hfalsy]
  refine ⟨hpath, ?_, ?_⟩
  · intro hnul args ctx₁ hargs
    have hproto : prototypeBuild (fun c n => getInstanceF fuel c n) ctx name fac
        = create ctx₁ name fac args := by
      simp only [prototypeBuild, hargs]
    have hsingle : singletonBuild (fun c n => getInstanceF fuel c n) ctx name fac
        = create ctx₁ name fac args := by
      rw [singletonBuild, if_pos (by rw [hnul]; rfl)]
      exact hproto
    rcases hc : create ctx₁ name fac args with ⟨r, ctx₂⟩
    have hcalls : ctx₂.calls = ctx₁.calls ++ [(name, args)] := by
      have := create_calls ctx₁ name fac args
      rw [hc] at this
      exact this
    have hbuild : build (fun c n => getInstanceF fuel c n) ctx name fac
        = (match (r, ctx₂) with
            | (.ok v, ctx') => (.ok v, cacheFac ctx' name v)
            | r => r) := by
      rw [build, if_neg (by simpa using hscope), hsingle, hc]
    cases r with
    | ok w =>
        simp only [getInstanceF, hpath, hbuild]
        simpa [cacheCtx, cacheFac] using hcalls
    | err e =>
        simp only [getInstanceF, hpath, hbuild]
        exact hcalls
    | outOfFuel =>
        simp only [getInstanceF, hpath, hbuild]
        exact hcalls
  · intro hnotundef hv
    have hsingle : singletonBuild (fun c n => getInstanceF fuel c n) ctx name fac
        = (.ok fac.inst, ctx) := by
      rw [singletonBuild, if_neg (by simp [hnotundef])]
    have hfacsame : cacheFac ctx name v = ctx := by
      unfold cacheFac
      have hfix : (fun facr : InstanceFactory => { facr with inst := v }) fac = fac := by
        rw [← hv]
      rw [updateA_self hfac hfix]
    have hctxsame : cacheCtx ctx name v = ctx := by
      unfold cacheCtx
      rw [insertA_self hcached]
    have hbuild : build (fun c n => getInstanceF fuel c n) ctx name fac
        = (.ok v, ctx) := by
      rw [build, if_neg (by simpa using hscope), hsingle, hv]
      show (Res.ok v, cacheFac ctx name v) = (Res.ok v, ctx)
      rw [hfacsame]
    simp only [getInstanceF, hpath, hbuild]
    show (Res.ok v, cacheCtx ctx name v) = (Res.ok v, ctx)
    rw [hctxsame]


/-- C10 witness: the concrete always-null singleton, in the state after
its first build, takes the build path again and re-invokes its factory. -/
theorem c10_witness :
    getInstancePath ctxN "n" = .buildPath facN
    ∧ ((getInstanceF 1 ctxN "n").2).calls = [("n", [])] := by
  have h := c10_falsy_cache_rebuilds 0 ctxN "n" facN .vNull rfl (by decide) rfl rfl
  refine ⟨h.1, ?_⟩
  have h2 := h.2.1 rfl [] ctxN rfl
  simpa using h2

/-- C5 counterexample: after a getInstance request for the concrete
prototype-scoped name completes, Context.instances still holds the built
instance under that name (the context-level cache of part_005 line 158
runs for every build), contradicting the claim that no entry is
retained; a further request nevertheless builds afresh. -/
theorem c5_counterexample :
    lookupA ((getInstanceF 1 ctxP "p").2).instances "p" = some (.vObj 0)
    ∧ (getInstanceF 1 (getInstanceF 1 ctxP "p").2 "p").1 = .ok (.vObj 1) :=
  ⟨rfl, rfl⟩

/-- C5 amended: a completed getInstance request for a prototype-scoped
name leaves the built instance durably stored in Context.instances under
that name; the entry is simply never served — the next request for the
name takes the build path again. -/
theorem c5_prototype_entry_retained (fuel : Nat) (ctx : Context) (name : Name)
    (fac : InstanceFactory) (v : Value) (ctx' : Context)
    (hfac : lookupA ctx.factories name = some fac)
    (hscope : fac.scope = "prototype")
    (h : getInstanceF (fuel + 1) ctx name = (.ok v, ctx')) :
    lookupA ctx'.instances name = some v
    ∧ ∃ fac', lookupA ctx'.factories name = some fac'
        ∧ getInstancePath ctx' name = .buildPath fac' := by
  refine ⟨getInstanceF_ok_lookup hfac h, ?_⟩
  have hscopes : scopesOf ctx' = scopesOf ctx := by
    have hpre : scopesOf (getInstanceF (fuel + 1) ctx name).2 = scopesOf ctx :=
      scopesOf_getInstanceF (fuel + 1) ctx name
    rw [h] at hpre
    exact hpre
  have hl := lookup_scope_of_scopesOf hscopes name
  rw [hfac] at hl
  rcases hfac' : lookupA ctx'.factories name with _ | fac'
  · rw [hfac'] at hl
    simp at hl
  · rw [hfac'] at hl
    have hsc' : fac'.scope = fac.scope := by simpa using hl
    refine ⟨fac', rfl, ?_⟩
    simp [getInstancePath, hfac', hsc', hscope]

/-- C5 witness: the amended statement evaluated on the concrete
prototype provider. -/
theorem c5_witness :
    lookupA ((getInstanceF 1 ctxP "p").2).instances "p" = some (.vObj 0)
    ∧ ∃ fac', lookupA ((getInstanceF 1 ctxP "p").2).factories "p" = some fac'
        ∧ getInstancePath ((getInstanceF 1 ctxP "p").2) "p" = .buildPath fac' :=
  c5_prototype_entry_retained 0 ctxP "p" facP (.vObj 0) (getInstanceF 1 ctxP "p").2
    rfl rfl rfl

/-- Completing a committed build of a zero-dependency provider invokes
its factory exactly once, appending one entry to the call trace
whatever the build outcome. -/
theorem completeCommit_calls_runBuild (fuel : Nat) (ctx : Context) (name : Name)
    (fac : InstanceFactory) (hdeps : fac.dependencies = []) :
    ((completeCommit fuel ctx name (.runBuild fac)).2).calls
      = ctx.calls ++ [(name, [])] := by
  have hargs : getArgs (fun c n => getInstanceF fuel c n) fac.dependencies ctx
      = (.ok [], ctx) := by
    rw [hdeps]
    rfl
  have hproto : prototypeBuild (fun c n => getInstanceF fuel c n) ctx name fac
      = create ctx name fac [] := by
    simp only [prototypeBuild, hargs]
  rcases hc : create ctx name fac [] with ⟨r, ctx'⟩
  have hcalls : ctx'.calls = ctx.calls ++ [(name, [])] := by
    have hcc := create_calls ctx name fac []
    rw [hc] at hcc
    exact hcc
  cases r with
  | ok v =>
      simp only [completeCommit, hproto, hc]
      split <;> exact hcalls
  | err e => simp only [completeCommit, hproto, hc]; exact hcalls
  | outOfFuel => simp only [completeCommit, hproto, hc]; exact hcalls

/-- Completing k identical committed builds of a zero-dependency
provider appends k invocations to the trace. -/
theorem runCommits_calls_runBuild (fuel : Nat) (name : Name) (fac : InstanceFactory)
    (hdeps : fac.dependencies = []) :
    ∀ (k : Nat) (ctx : Context),
      ((runCommits fuel name (List.replicate k (.runBuild fac)) ctx).2).calls
        = ctx.calls ++ List.replicate k (name, []) := by
  intro k
  induction k with
  | zero => intro ctx; simp [runCommits]
  | succ k ih =>
      intro ctx
      rw [List.replicate_succ]
      simp only [runCommits]
      rw [ih]
      rw [completeCommit_calls_runBuild fuel ctx name fac hdeps]
      simp [List.replicate_succ]

/-- C2 counterexample: three getInstance calls for the concrete
singleton name issued concurrently before any build completes. The
claim says exactly one factory invocation occurs and all requesters
receive the same instance; instead each request runs its own build —
three invocations are recorded and the three requesters receive three
distinct instances. -/
theorem c2_counterexample :
    (concurrentGetInstance 1 ctxSvc "svc" 3).1
      = [.ok (.vObj 0), .ok (.vObj 1), .ok (.vObj 2)]
    ∧ ((concurrentGetInstance 1 ctxSvc "svc" 3).2).calls.length = 3
    ∧ Value.vObj 0 ≠ Value.vObj 1 := by
  refine ⟨rfl, rfl, ?_⟩
  intro h
  simp at h

/-- C2 amended: when multiple getInstance requests for the same
singleton name arrive concurrently before the first build completes
(here for a provider without dependencies, so the linearization is
exact), there is no in-flight deduplication: each of the k requests
commits to and completes its own build, so the factory is invoked k
times — once per request — and requesters may receive distinct
instances. Deduplication only benefits requests arriving after a build
has completed and cached a truthy instance. -/
theorem c2_no_inflight_dedup (fuel : Nat) (ctx : Context) (name : Name)
    (fac : InstanceFactory) (k : Nat)
    (hfac : lookupA ctx.factories name = some fac)
    (hscope : fac.scope ≠ "prototype")
    (hdeps : fac.dependencies = [])
    (hunbuilt : looseEqUndefined fac.inst = true)
    (hnocache : truthy (jsRead ctx.instances name) = false) :
    ((concurrentGetInstance fuel ctx name k).2).calls
      = ctx.calls ++ List.replicate k (name, []) := by
  have hpath : getInstancePath ctx name = .buildPath fac := by
    simp [getInstancePath, hfac, hnocache]
  have hcommit : executorCommit ctx name = .runBuild fac := by
    by_cases hp : fac.scope = "prototype"
    · simp [executorCommit, hpath, hp]
    · simp [executorCommit, hpath, hp, hunbuilt]
  unfold concurrentGetInstance
  rw [hcommit]
  exact runCommits_calls_runBuild fuel name fac hdeps k ctx

/-- C2 witness: the amended statement evaluated on the concrete
singleton — three concurrent requests, three recorded invocations. -/
theorem c2_witness :
    ((concurrentGetInstance 1 ctxSvc "svc" 3).2).calls
      = List.replicate 3 ("svc", []) := by
  have h := c2_no_inflight_dedup 1 ctxSvc "svc" facSvc 3 rfl (by decide) rfl rfl rfl
  simpa using h

/-- An edge from each declared dependency to its provider is in the
built DAG. -/
theorem mem_buildEdges {factories : List (Name × InstanceFactory)} {k : Name}
    {fac : InstanceFactory} (hmem : (k, fac) ∈ factories) {b : Name}
    (hdep : b ∈ fac.dependencies) : (b, fac.name) ∈ buildEdges factories := by
  unfold buildEdges
  rw [List.mem_flatten]
  refine ⟨edgesForInstance fac, List.mem_map.mpr ⟨(k, fac), hmem, rfl⟩, ?_⟩
  unfold edgesForInstance
  have hlen : fac.dependencies.length ≠ 0 := by
    intro h0
    rw [List.length_eq_zero] at h0
    rw [h0] at hdep
    cases hdep
  rw [if_neg hlen]
  exact List.mem_map.mpr ⟨b, hdep, rfl⟩

/-- The target of any edge is a node of the DAG. -/
theorem mem_nodesOf {edges : List (Name × Name)} {b a : Name} (h : (b, a) ∈ edges) :
    a ∈ nodesOf edges := by
  unfold nodesOf
  rw [List.mem_dedup]
  exact List.mem_append.mpr (Or.inr (List.mem_map.mpr ⟨(b, a), h, rfl⟩))

/-- Every element of a list is the first component of some pair of its
zip with an equally long list, whose second component is in that list. -/
theorem exists_zip_pair {α β : Type} :
    ∀ (l : List α) (r : List β), l.length = r.length →
      ∀ a ∈ l, ∃ b, (a, b) ∈ l.zip r ∧ b ∈ r := by
  intro l
  induction l with
  | nil => intro r h a ha; cases ha
  | cons x xs ih =>
      intro r h a ha
      cases r with
      | nil => simp at h
      | cons y ys =>
          have h' : xs.length = ys.length := by simpa using h
          rcases List.mem_cons.mp ha with rfl | ha'
          · exact ⟨y, List.mem_cons_self .., List.mem_cons_self ..⟩
          · obtain ⟨b, hb1, hb2⟩ := ih ys h' a ha'
            exact ⟨b, List.mem_cons_of_mem _ hb1, List.mem_cons_of_mem _ hb2⟩

/-- Every name on a cyclic chain is the first component of one of its
consecutive pairs, with the successor also on the chain. -/
theorem cyclePairs_fst (c : List Name) (a : Name) (ha : a ∈ c) :
    ∃ b, (a, b) ∈ cyclePairs c ∧ b ∈ c := by
  obtain ⟨b, hb1, hb2⟩ :=
    exists_zip_pair c (c.rotate 1) (by rw [List.length_rotate]) a ha
  exact ⟨b, hb1, (List.mem_rotate).mp hb2⟩

/-- Trapped-set argument: a nonempty set of nodes, each with an incoming
edge from another member of the set, can never be visited by the
topological traversal (a member is never eligible, and the edges among
members are never removed), so the traversal never completes
successfully. -/
theorem traverseDagGo_trapped (fuel : Nat) (S : List Name) (hSne : S ≠ []) :
    ∀ (steps : Nat) (edges : List (Name × Name)) (pending : List Name) (ctx : Context),
      (∀ a ∈ S, a ∈ pending) →
      (∀ a ∈ S, ∃ b, b ∈ S ∧ (b, a) ∈ edges) →
      ∀ ctx', traverseDagGo fuel edges steps pending ctx ≠ .ok ctx' := by
  intro steps
  induction steps with
  | zero =>
      intro edges pending ctx hmem hin ctx'
      obtain ⟨a, ha⟩ := List.exists_mem_of_ne_nil S hSne
      have hap : a ∈ pending := hmem a ha
      cases pending with
      | nil => cases hap
      | cons p ps =>
          intro heq
          cases heq
  | succ steps ih =>
      intro edges pending ctx hmem hin ctx'
      obtain ⟨a, ha⟩ := List.exists_mem_of_ne_nil S hSne
      have hap : a ∈ pending := hmem a ha
      cases pending with
      | nil => cases hap
      | cons p ps =>
          rcases hf : (p :: ps).find? (fun n => noIncoming edges n) with _ | n
          · intro heq
            simp only [traverseDagGo, hf] at heq
            cases heq
          · have hnoinc : noIncoming edges n = true := List.find?_some hf
            have hnS : n ∉ S := by
              intro hnS
              obtain ⟨b, _, hedge⟩ := hin n hnS
              have hall := (List.all_eq_true.mp hnoinc) (b, n) hedge
              simp at hall
            rcases hg : getInstanceF fuel ctx n with ⟨r, ctxr⟩
            cases r with
            | ok w =>
                have hm' : ∀ a' ∈ S, a' ∈ (p :: ps).erase n := by
                  intro a' ha'
                  have hne' : a' ≠ n := fun heq => hnS (heq ▸ ha')
                  exact (List.mem_erase_of_ne hne').mpr (hmem a' ha')
                have hi' : ∀ a' ∈ S, ∃ b, b ∈ S
                    ∧ (b, a') ∈ edges.filter (fun e => e.1 ≠ n) := by
                  intro a' ha'
                  obtain ⟨b, hbS, hedge⟩ := hin a' ha'
                  refine ⟨b, hbS, List.mem_filter.mpr ⟨hedge, ?_⟩⟩
                  have hbn : b ≠ n := fun heq => hnS (heq ▸ hbS)
                  simpa using hbn
                intro heq
                simp only [traverseDagGo, hf, hg] at heq
                exact ih (edges.filter (fun e => e.1 ≠ n)) ((p :: ps).erase n) ctxr
                  hm' hi' ctx' heq
            | err e =>
                intro heq
                simp only [traverseDagGo, hf, hg] at heq
                cases heq
            | outOfFuel =>
                intro heq
                simp only [traverseDagGo, hf, hg] at heq
                cases heq

/-- C4 amended: for every registry whose dependency graph contains a
cycle, the eager bootstrap pass terminates (the traversal is a total
function) and never resolves successfully; the reported failure is the
cycle error when the traversal reaches the stuck state, but a provider
whose own build fails earlier in the same pass surfaces its build error
instead. -/
theorem c4_cycle_never_resolves (fuel : Nat) (ctx : Context) (c : List Name)
    (hne : c ≠ [])
    (hcyc : ∀ p ∈ cyclePairs c, ∃ k fac, (k, fac) ∈ ctx.factories
        ∧ fac.name = p.1 ∧ p.2 ∈ fac.dependencies) :
    ∀ ctx', bootstrapEager fuel ctx ≠ .ok ctx' := by
  have hedge : ∀ a ∈ c, ∃ b, b ∈ c ∧ (b, a) ∈ buildEdges ctx.factories := by
    intro a ha
    obtain ⟨b, hpair, hbc⟩ := cyclePairs_fst c a ha
    obtain ⟨k, fac, hmem, hname, hdep⟩ := hcyc (a, b) hpair
    refine ⟨b, hbc, ?_⟩
    have hbe := mem_buildEdges hmem hdep
    rw [hname] at hbe
    exact hbe
  have hmemn : ∀ a ∈ c, a ∈ nodesOf (buildEdges ctx.factories) := by
    intro a ha
    obtain ⟨b, _, hbe⟩ := hedge a ha
    exact mem_nodesOf hbe
  intro ctx'
  show traverseDagGo fuel (buildEdges ctx.factories)
      (nodesOf (buildEdges ctx.factories)).length
      (nodesOf (buildEdges ctx.factories)) ctx ≠ .ok ctx'
  exact traverseDagGo_trapped fuel c hne _ _ _ ctx hmemn hedge ctx'

/-- C4 counterexample: the registry with the cycle A-B plus an
independent provider C whose build rejects. The claim says bootstrap
fails with a cycle error; instead the traversal reaches C first and the
pass rejects with C's build error, not the cycle error (though it still
never resolves successfully). -/
theorem c4_counterexample :
    (∀ p ∈ cyclePairs ["A", "B"], ∃ k fac, (k, fac) ∈ ctxABC.factories
        ∧ fac.name = p.1 ∧ p.2 ∈ fac.dependencies)
    ∧ bootstrapEager 2 ctxABC = .err (.vStr "boom")
    ∧ BootRes.err (.vStr "boom") ≠ BootRes.cycleErr := by
  refine ⟨?_, rfl, ?_⟩
  · intro p hp
    have hcp : cyclePairs ["A", "B"] = [("A", "B"), ("B", "A")] := rfl
    rw [hcp] at hp
    rcases List.mem_cons.mp hp with rfl | hp'
    · exact ⟨"A", facA, by simp [ctxABC], rfl, by simp [facA, promFac]⟩
    · rcases List.mem_cons.mp hp' with rfl | hp''
      · exact ⟨"B", facB, by simp [ctxABC], rfl, by simp [facB, promFac]⟩
      · cases hp''
  · intro h
    cases h

/-- C4 witness: the pure two-cycle registry never bootstraps
successfully, evaluated at the concrete candidate result. -/
theorem c4_witness : bootstrapEager 2 ctxAB ≠ .ok ctxAB := by
  apply c4_cycle_never_resolves 2 ctxAB ["A", "B"] (by simp) ?hcyc ctxAB
  case hcyc =>
  intro p hp
  have hcp : cyclePairs ["A", "B"] = [("A", "B"), ("B", "A")] := rfl
  rw [hcp] at hp
  rcases List.mem_cons.mp hp with rfl | hp'
  · exact ⟨"A", facA, by simp [ctxAB], rfl, by simp [facA, promFac]⟩
  · rcases List.mem_cons.mp hp' with rfl | hp''
    · exact ⟨"B", facB, by simp [ctxAB], rfl, by simp [facB, promFac]⟩
    · cases hp''

/-- Promise.all of a list of fulfilled outcomes is the fulfilled list. -/
theorem allRes_map_ok (vals : List Value) : allRes (vals.map Res.ok) = .ok vals := by
  induction vals with
  | nil => rfl
  | cons v rest ih => simp [allRes, ih]

/-- Membership in the first-occurrence key list is membership among the
pair keys. -/
theorem mem_firstKeys {pairs : List (Name × Value)} {n : Name} :
    n ∈ firstKeys pairs ↔ n ∈ pairs.map (fun p => p.1) := by
  induction pairs with
  | nil => simp [firstKeys]
  | cons p rest ih =>
      simp only [firstKeys, List.map_cons, List.mem_cons]
      constructor
      · intro h
        rcases h with rfl | h
        · exact Or.inl rfl
        · exact Or.inr (ih.mp (List.mem_filter.mp h).1)
      · intro h
        rcases h with h | h
        · exact Or.inl h
        · by_cases hn : n = p.1
          · exact Or.inl hn
          · exact Or.inr (List.mem_filter.mpr ⟨ih.mpr h, by simpa using hn⟩)

/-- The keys of the zip of equally long lists are the first list. -/
theorem map_fst_zip_eq {α β : Type} :
    ∀ (l : List α) (r : List β), l.length = r.length →
      (l.zip r).map (fun p => p.1) = l := by
  intro l
  induction l with
  | nil => intro r h; rfl
  | cons x xs ih =>
      intro r h
      cases r with
      | nil => simp at h
      | cons y ys =>
          have h' : xs.length = ys.length := by simpa using h
          simp [List.zip_cons_cons, ih ys h']

/-- The grouping pipeline, written as one map over the first-occurrence
keys. -/
theorem groupPipeline_eq (names : List Name) (vals : List Value) :
    groupPipeline names vals
      = (firstKeys (names.zip vals)).map
          (fun n => (n, unwrapSingle (chainSnd
            ((names.zip vals).filter (fun p => p.1 = n))))) := by
  unfold groupPipeline groupByName
  rw [List.map_map]
  rfl

/-- Ramda's chain-extract step degenerates to plain extraction when no
instance in the group is itself an array. -/
theorem chainSnd_no_arr : ∀ {grp : List (Name × Value)},
    (∀ p ∈ grp, isArr p.2 = false) → chainSnd grp = grp.map (fun p => p.2) := by
  intro grp
  induction grp with
  | nil => intro _; rfl
  | cons p rest ih =>
      intro h
      have hp := h p (List.mem_cons_self ..)
      have hrest := fun q hq => h q (List.mem_cons_of_mem _ hq)
      have hstep : chainSnd (p :: rest) = p.2 :: chainSnd rest := by
        show (match p.2 with
          | .vArr xs => xs ++ chainSnd rest
          | v => v :: chainSnd rest) = p.2 :: chainSnd rest
        cases hv : p.2
        · rfl
        · rfl
        · rfl
        · rfl
        · rfl
        · rw [hv] at hp; simp [isArr] at hp
        · rfl
      rw [hstep, ih hrest]
      rfl

/-- The number of zip pairs keyed by a name is its occurrence count. -/
theorem length_filter_zip (n : Name) :
    ∀ (names : List Name) (vals : List Value), names.length = vals.length →
      ((names.zip vals).filter (fun p => p.1 = n)).length = names.count n := by
  intro names
  induction names with
  | nil => intro vals _; simp
  | cons m rest ih =>
      intro vals h
      cases vals with
      | nil => simp at h
      | cons v vrest =>
          have h' : rest.length = vrest.length := by simpa using h
          by_cases hm : m = n
          · subst hm
            simp [List.zip_cons_cons, List.filter_cons, List.count_cons, ih vrest h']
          · simp [List.zip_cons_cons, List.filter_cons, List.count_cons, hm, ih vrest h']

/-- Any group whose length is not one stays an array. -/
theorem unwrapSingle_length_ne_one {l : List Value} (h : l.length ≠ 1) :
    unwrapSingle l = .vArr l := by
  cases l with
  | nil => rfl
  | cons v rest =>
      cases rest with
      | nil => simp at h
      | cons w r2 => rfl

/-- C8 counterexample: a name registered once whose resolved instance is
itself the one-element array containing 7. The claim says a name that
occurs exactly once maps to its single resolved instance; instead the
chain-extract step of getInstances splices the array, the one-element
group is unpacked, and the name maps to the bare 7, not to the resolved
instance. -/
theorem c8_counterexample :
    (getInstanceF 1 ctx8 "x").1 = .ok (.vArr [.vNum 7])
    ∧ (getInstances 1 ctx8 ["x"]).1 = .ok [("x", .vNum 7)]
    ∧ Value.vNum 7 ≠ Value.vArr [.vNum 7] := by
  refine ⟨rfl, rfl, ?_⟩
  intro h
  cases h

/-- C8 amended: provided no resolved instance is itself an array (the
chain-extract step splices array instances into the group), getInstances
maps a name occurring exactly once in the request list to its single
resolved instance (a scalar) and a name occurring more than once to the
ordered sequence of the instances resolved for its occurrences, one per
occurrence. -/
theorem c8_scalar_or_sequence (fuel : Nat) (ctx : Context) (names : List Name)
    (vals : List Value) (ctx' : Context)
    (hrun : mapGetInstance (fun c n => getInstanceF fuel c n) names ctx
        = (vals.map Res.ok, ctx'))
    (hnoarr : ∀ v ∈ vals, isArr v = false) :
    (getInstances fuel ctx names).1 = .ok (groupPipeline names vals)
    ∧ ∀ n ∈ names,
        (occVals names vals n).length = names.count n
        ∧ (names.count n = 1 →
            ∃ v, occVals names vals n = [v]
              ∧ lookupA (groupPipeline names vals) n = some v)
        ∧ (1 < names.count n →
            lookupA (groupPipeline names vals) n
              = some (.vArr (occVals names vals n))) := by
  have hlen : names.length = vals.length := by
    have h1 := mapGetInstance_length (fun c n => getInstanceF fuel c n) names ctx
    rw [hrun] at h1
    simpa using h1.symm
  have hget : (getInstances fuel ctx names).1 = .ok (groupPipeline names vals) := by
    simp only [getInstances, hrun, allRes_map_ok]
  refine ⟨hget, ?_⟩
  intro n hn
  have hnoarrz : ∀ q ∈ (names.zip vals).filter (fun p => p.1 = n), isArr q.2 = false := by
    intro q hq
    rcases q with ⟨qa, qb⟩
    exact hnoarr qb (List.of_mem_zip (List.mem_of_mem_filter hq)).2
  have hocc : chainSnd ((names.zip vals).filter (fun p => p.1 = n))
      = occVals names vals n := by
    rw [chainSnd_no_arr hnoarrz]
    rfl
  have hkey : n ∈ firstKeys (names.zip vals) := by
    rw [mem_firstKeys, map_fst_zip_eq names vals hlen]
    exact hn
  have hlookup : lookupA (groupPipeline names vals) n
      = some (unwrapSingle (occVals names vals n)) := by
    rw [groupPipeline_eq, lookupA_of_mem_keys _ _ _ hkey, hocc]
  have hcount : (occVals names vals n).length = names.count n := by
    unfold occVals
    rw [List.length_map]
    exact length_filter_zip n names vals hlen
  refine ⟨hcount, ?_, ?_⟩
  · intro h1
    have hl1 : (occVals names vals n).length = 1 := by rw [hcount, h1]
    obtain ⟨v, hv⟩ := List.length_eq_one.mp hl1
    refine ⟨v, hv, ?_⟩
    rw [hlookup, hv]
    rfl
  · intro h2
    have hl2 : (occVals names vals n).length ≠ 1 := by
      rw [hcount]
      omega
    rw [hlookup, unwrapSingle_length_ne_one hl2]

/-- C8 witness: the amended statement on the concrete request for x, x
and y — x maps to the two-element sequence of its occurrences, y to its
scalar. -/
theorem c8_witness :
    (getInstances 1 ctx8w ["x", "x", "y"]).1
      = .ok (groupPipeline ["x", "x", "y"] [.vNum 1, .vNum 1, .vStr "s"])
    ∧ lookupA (groupPipeline ["x", "x", "y"] [.vNum 1, .vNum 1, .vStr "s"]) "x"
        = some (.vArr [.vNum 1, .vNum 1])
    ∧ lookupA (groupPipeline ["x", "x", "y"] [.vNum 1, .vNum 1, .vStr "s"]) "y"
        = some (.vStr "s") := by
  have h := c8_scalar_or_sequence 1 ctx8w ["x", "x", "y"]
      [.vNum 1, .vNum 1, .vStr "s"]
      (mapGetInstance (fun c n => getInstanceF 1 c n) ["x", "x", "y"] ctx8w).2 rfl
      (by decide)
  exact ⟨h.1, rfl, rfl⟩
